import Mathlib

/-!
Verification of the Poseidon circuit gadget and the cyclefold step-folding
input model of the sirius repository.

The development shallowly embeds the two source files:
  src/poseidon/poseidon_circuit.rs
  src/ivc/cyclefold/sfc/input/mod.rs
Field elements are modelled by an abstract field `F`; machine arrays of
width `T` become functions `Fin T → F`.  The external parameter table of
the poseidon crate (round constants, MDS matrices, sparse factorization,
initial sponge state) is modelled as an abstract structure
`PoseidonSpec`, matching the specification, which treats it as an
external parameter table derived once from (T, R_f, R_p).
-/

namespace Sirius

variable {F : Type} [Field F] {α β : Type}

/-- The `Spec` parameter table of the external poseidon crate, as consumed by
`poseidon_circuit.rs`.  `r_f_half` is `spec.r_f() / 2`; `r_p` is
`spec.constants().partial().len()`; `startC`, `endC` and `midC` are the
rows of `constants().start()`, `constants().end()` and
`constants().partial()`; `mds` and `preSparse` are
`mds_matrices().mds()` and `mds_matrices().pre_sparse_mds()`;
`sparseRow r` and `sparseColHat r` are `sparse_matrices()[r].row()` and
`sparse_matrices()[r].col_hat()` (the latter indexed by naturals, entry
`i - 1` broadcasting into slot `i`); `init` is
`poseidon::State::default().words()`, the fixed initial sponge state.
`hT` and `hRATE` record that the compile-time widths satisfy `1 < T`
(the output slot `state[1]` must exist) and `0 < RATE`. -/
structure PoseidonSpec (F : Type) where
  T : ℕ
  RATE : ℕ
  hT : 1 < T
  hRATE : 0 < RATE
  r_f_half : ℕ
  r_p : ℕ
  startC : ℕ → Fin T → F
  endC : ℕ → Fin T → F
  midC : ℕ → F
  mds : Fin T → Fin T → F
  preSparse : Fin T → Fin T → F
  sparseRow : ℕ → Fin T → F
  sparseColHat : ℕ → ℕ → F
  init : Fin T → F

/-- Slot `0` of the state, used for the S-box in the sparse rounds. -/
def PoseidonSpec.slot0 (p : PoseidonSpec F) : Fin p.T :=
  ⟨0, Nat.lt_trans Nat.zero_lt_one p.hT⟩

/-- The `pow_5` closure of `PoseidonChip::next_state_val`:
`v2 = v * v; v2 * v2 * v`. -/
def pow5 (v : F) : F :=
  (v * v) * (v * v) * v

/-- `PoseidonChip::next_state_val`: starting from `rc`, accumulate
`pow_5(s[i]) * q_5[i] + s[i] * q_1[i]` over the state, then multiply by
`(-q_o)⁻¹`. -/
def next_state_val {T : ℕ} (state q_1 q_5 : Fin T → F) (q_o rc : F) : F :=
  (rc + ∑ i, (pow5 (state i) * q_5 i + state i * q_1 i)) * (-q_o)⁻¹

/-- The padded absorption row of `PoseidonChip::pre_round`: the value at
index `i` of `[0] ++ inputs ++ [1] ++ repeat 0`, i.e. of
`iter::once(ZERO).chain(inputs).chain(once(ONE)).chain(repeat(ZERO)).take(T)`. -/
def padInput (p : PoseidonSpec F) (inputs : List F) (i : Fin p.T) : F :=
  ((0 :: inputs) ++ [1]).getD (i : ℕ) 0

/-- Output value assigned by `PoseidonChip::pre_round` for slot
`state_idx`: `s_val + input_val + rc_val` with
`rc_val = constants().start()[0][state_idx]`. -/
def pre_round_val (p : PoseidonSpec F) (inputs : List F) (i : Fin p.T)
    (s : Fin p.T → F) : F :=
  s i + padInput p inputs i + p.startC 0 i

/-- Round-constant row used by `PoseidonChip::full_round`:
`constants[round_idx + 1]` of the start table in the first half,
`constants[round_idx]` of the end table in the second half except for its
final round, which uses zeros. -/
def full_round_rcs (p : PoseidonSpec F) (is_first : Bool) (r : ℕ) :
    Fin p.T → F :=
  if is_first then p.startC (r + 1)
  else if r < p.r_f_half - 1 then p.endC r
  else fun _ => 0

/-- Mixing matrix used by `PoseidonChip::full_round`: the pre-sparse MDS
matrix in the last round of the first half, the MDS matrix otherwise. -/
def full_round_mds (p : PoseidonSpec F) (is_first : Bool) (r : ℕ) :
    Fin p.T → Fin p.T → F :=
  if is_first ∧ r = p.r_f_half - 1 then p.preSparse else p.mds

/-- Output value assigned by `PoseidonChip::full_round` for slot `i`:
`next_state_val` with `q_5 = mds_row`, `q_1 = 0`, `q_o = -1` and
`rc_val = Σ_j mds_row[j] * rcs[j]`. -/
def full_round_val (p : PoseidonSpec F) (is_first : Bool) (r : ℕ)
    (i : Fin p.T) (s : Fin p.T → F) : F :=
  next_state_val s (fun _ => 0) (full_round_mds p is_first r i) (-1)
    (∑ j, full_round_mds p is_first r i j * full_round_rcs p is_first r j)

/-- Output value assigned by the source's `partial_round` for slot `i`
(named `mid_round_val` here).  For `state_idx = 0`: `q_5[0] = row[0]`,
`q_1[j] = row[j]` for `j ∈ [1, T)`, `rc_val = row[0] * rc`.  Otherwise:
`q_5[0] = col_hat[state_idx - 1]`, `q_1[state_idx] = 1`,
`rc_val = col_hat[state_idx - 1] * rc`.  In both cases the row value is
`next_state_val(state, q_1, q_5, -1, rc_val)`. -/
def mid_round_val (p : PoseidonSpec F) (r : ℕ) (i : Fin p.T)
    (s : Fin p.T → F) : F :=
  if (i : ℕ) = 0 then
    next_state_val s
      (fun j => if (j : ℕ) = 0 then 0 else p.sparseRow r j)
      (fun j => if (j : ℕ) = 0 then p.sparseRow r p.slot0 else 0)
      (-1) (p.sparseRow r p.slot0 * p.midC r)
  else
    next_state_val s
      (fun j => if j = i then 1 else 0)
      (fun j => if (j : ℕ) = 0 then p.sparseColHat r ((i : ℕ) - 1) else 0)
      (-1) (p.sparseColHat r ((i : ℕ) - 1) * p.midC r)

/-- `PoseidonChip::permutation`: the width-`T` vector of values assigned
by the circuit — the pre-round row for every slot, then `r_f/2` first
half full rounds, `r_p` sparse rounds, and `r_f/2` second half full
rounds, each round computing all `T` slots from the previous round's
values. -/
def permutation (p : PoseidonSpec F) (inputs : List F)
    (init_state : Fin p.T → F) : Fin p.T → F :=
  let s1 : Fin p.T → F := fun i => pre_round_val p inputs i init_state
  let s2 := (List.range p.r_f_half).foldl
    (fun st r => fun i => full_round_val p true r i st) s1
  let s3 := (List.range p.r_p).foldl
    (fun st r => fun i => mid_round_val p r i st) s2
  (List.range p.r_f_half).foldl
    (fun st r => fun i => full_round_val p false r i st) s3

/-- Modelled from the spec: the pre-round (absorption) step of the
native permutation — a pure per-slot addition of the padded input row
and the first round constant. -/
def native_pre_round (p : PoseidonSpec F) (inputs : List F)
    (s : Fin p.T → F) : Fin p.T → F :=
  fun i => s i + padInput p inputs i + p.startC 0 i

/-- Modelled from the spec: a native full round — every slot passes
through the degree-5 S-box, then the state is mixed by the MDS matrix
(the pre-sparse matrix in the final round of the first half) together
with the round's constants. -/
def native_full_round (p : PoseidonSpec F) (is_first : Bool) (r : ℕ)
    (s : Fin p.T → F) : Fin p.T → F :=
  fun i => ∑ j, full_round_mds p is_first r i j *
    (s j ^ 5 + full_round_rcs p is_first r j)

/-- Modelled from the spec: a native sparse round — only slot 0 receives
the degree-5 S-box (with the round constant), and the mixing is the
rank-1 sparse update: the row vector applied to produce slot 0, the
column vector broadcasting the S-box output into the other slots. -/
def native_mid_round (p : PoseidonSpec F) (r : ℕ)
    (s : Fin p.T → F) : Fin p.T → F :=
  fun i =>
    if (i : ℕ) = 0 then
      ∑ j, p.sparseRow r j *
        (if (j : ℕ) = 0 then s p.slot0 ^ 5 + p.midC r else s j)
    else
      p.sparseColHat r ((i : ℕ) - 1) * (s p.slot0 ^ 5 + p.midC r) + s i

/-- Modelled from the spec: the native (direct field-arithmetic)
Poseidon permutation with the same parameters — absorption, first half
full rounds, sparse rounds, second half full rounds. -/
def native_permutation (p : PoseidonSpec F) (inputs : List F)
    (init_state : Fin p.T → F) : Fin p.T → F :=
  let s1 := native_pre_round p inputs init_state
  let s2 := (List.range p.r_f_half).foldl
    (fun st r => native_full_round p true r st) s1
  let s3 := (List.range p.r_p).foldl
    (fun st r => native_mid_round p r st) s2
  (List.range p.r_f_half).foldl
    (fun st r => native_full_round p false r st) s3

/-- Fuel-indexed splitting of a list into chunks of `r` elements, the
last chunk possibly shorter; the fuel only drives termination. -/
def chunksFuel (r : ℕ) : ℕ → List α → List (List α)
  | 0, _ => []
  | _ + 1, [] => []
  | fuel + 1, a :: l => (a :: l.take (r - 1)) :: chunksFuel r fuel (l.drop (r - 1))

/-- Rust's `slice::chunks(r)`: the list split into consecutive chunks of
`r` elements, the last chunk possibly shorter; the empty list yields no
chunks. -/
def chunksList (r : ℕ) (l : List α) : List (List α) :=
  chunksFuel r l.length l

/-- `PoseidonChip::squeeze`, on the recorded buffer: initialize the
state to the fixed initial vector, run one permutation per chunk of
`RATE` buffered elements, and if `buf.len() % RATE == 0` run one more
permutation with an empty input. -/
def squeezeState (p : PoseidonSpec F) (buf : List F) : Fin p.T → F :=
  let st := (chunksList p.RATE buf).foldl (fun s c => permutation p c s) p.init
  if buf.length % p.RATE = 0 then permutation p [] st else st

/-- The field value returned by `PoseidonChip::squeeze`: `state[1]`. -/
def squeeze (p : PoseidonSpec F) (buf : List F) : F :=
  squeezeState p buf ⟨1, p.hT⟩

/-- Fuel-indexed extraction of the full `r`-element chunks of a list. -/
def fullChunksFuel (r : ℕ) : ℕ → List α → List (List α)
  | 0, _ => []
  | fuel + 1, l =>
    if r ≤ l.length ∧ 0 < r then l.take r :: fullChunksFuel r fuel (l.drop r)
    else []

/-- The full `r`-element chunks of a list, in order, a trailing shorter
run being discarded. -/
def fullChunks (r : ℕ) (l : List α) : List (List α) :=
  fullChunksFuel r l.length l

/-- Squeeze as claim C2 states it: one permutation per full chunk of
`RATE` buffered elements, one additional permutation with an empty input
chunk if and only if the buffered length is an exact non-zero multiple
of `RATE`, and the result read from `state[1]`. -/
def squeezeClaimed (p : PoseidonSpec F) (buf : List F) : F :=
  let st := (fullChunks p.RATE buf).foldl (fun s c => permutation p c s) p.init
  (if buf.length % p.RATE = 0 ∧ buf.length ≠ 0 then permutation p [] st else st)
    ⟨1, p.hT⟩

/-- Squeeze as amended: one permutation per full chunk of `RATE`
buffered elements, then — when the buffered length is not a multiple of
`RATE` — one further permutation on the remaining short chunk; one
additional permutation with an empty input chunk if and only if the
buffered length is a multiple of `RATE` (the empty buffer included); the
result read from `state[1]`. -/
def squeezeAmended (p : PoseidonSpec F) (buf : List F) : F :=
  let runs := fullChunks p.RATE buf ++
    (if buf.length % p.RATE = 0 then []
     else [buf.drop (buf.length / p.RATE * p.RATE)])
  let st := runs.foldl (fun s c => permutation p c s) p.init
  (if buf.length % p.RATE = 0 then permutation p [] st else st) ⟨1, p.hT⟩

/-- The mutable fields of `PoseidonChip` that carry sponge data between
calls: the absorb buffer.  (The `offset` field and the `RegionCtx` row
cursor are circuit-layout bookkeeping of the external synthesis
framework and carry no field values.) -/
structure PoseidonChipState (F : Type) where
  buf : List F

/-- `PoseidonChip::update`: append the inputs to the absorb buffer. -/
def updateChip (c : PoseidonChipState F) (inputs : List F) :
    PoseidonChipState F :=
  { c with buf := c.buf ++ inputs }

/-- `PoseidonChip::squeeze` as a state transformer: it clones the buffer
(`let buf = self.buf.clone()`), hashes the clone, and leaves the buffer
field itself untouched. -/
def squeezeChip (p : PoseidonSpec F) (c : PoseidonChipState F) :
    F × PoseidonChipState F :=
  (squeeze p c.buf, c)

/-- Modelled from the spec: the random oracle the canonical state model
absorbs into.  Only its transcript matters to this core: `buf` is the
ordered sequence of field elements absorbed so far. -/
structure RO (F : Type) where
  buf : List F

/-- Modelled from the spec: absorbing one field element appends it to
the transcript. -/
def RO.absorb_field (ro : RO F) (x : F) : RO F :=
  ⟨ro.buf ++ [x]⟩

/-- Modelled from the spec: `absorb_field_iter` absorbs each element of
the iterator in order. -/
def RO.absorb_field_iter (ro : RO F) (xs : List F) : RO F :=
  xs.foldl RO.absorb_field ro

/-- Modelled from the spec: `absorb_iter` absorbs each entity of the
iterator in order, via the entity's own projection `f`. -/
def RO.absorb_iter (ro : RO F) (l : List α) (f : α → RO F → RO F) : RO F :=
  l.foldl (fun r a => f a r) ro

/-- `BigUintPoint<F>`: a foreign-field commitment point carried as two
fixed-size ordered limb sequences (the spec treats it as opaque beyond
that shape). -/
structure BigUintPoint (LIMBS : ℕ) (F : Type) where
  x : Fin LIMBS → F
  y : Fin LIMBS → F

/-- Modelled from the spec: `BigUintPoint::identity()`, the group
identity in limb form; every limb is zero. -/
def BigUintPoint.identity {LIMBS : ℕ} : BigUintPoint LIMBS F :=
  ⟨fun _ => 0, fun _ => 0⟩

/-- Modelled from the spec: a `BigUintPoint` is absorbed coordinate-wise,
the `x` limbs in order and then the `y` limbs in order. -/
def BigUintPoint.absorb_into {LIMBS : ℕ} (pt : BigUintPoint LIMBS F)
    (ro : RO F) : RO F :=
  (ro.absorb_field_iter (List.ofFn pt.x)).absorb_field_iter (List.ofFn pt.y)

/-- `NativePlonkInstance<F>`: witness-column commitments in limb form,
the rectangular public-input vectors, and the challenges. -/
structure NativePlonkInstance (LIMBS : ℕ) (F : Type) where
  W_commitments : List (BigUintPoint LIMBS F)
  instances : List (List F)
  challenges : List F

/-- `AbsorbInRO for NativePlonkInstance`: absorb the commitments, then
the flattened public-input vectors, then the challenges. -/
def NativePlonkInstance.absorb_into {LIMBS : ℕ}
    (x : NativePlonkInstance LIMBS F) (ro : RO F) : RO F :=
  ((ro.absorb_iter x.W_commitments BigUintPoint.absorb_into).absorb_field_iter
    x.instances.flatten).absorb_field_iter x.challenges

/-- `SupportPlonkInstance<F>`: witness-column commitments as affine
coordinate pairs, the public-input vectors, and the challenges. -/
structure SupportPlonkInstance (F : Type) where
  W_commitments : List (F × F)
  instances : List (List F)
  challenges : List F

/-- `AbsorbInRO for SupportPlonkInstance`: absorb the commitment
coordinates (x then y per point), then the flattened public-input
vectors chained with the challenges. -/
def SupportPlonkInstance.absorb_into (x : SupportPlonkInstance F)
    (ro : RO F) : RO F :=
  (ro.absorb_field_iter (x.W_commitments.flatMap fun c => [c.1, c.2])).absorb_field_iter
    (x.instances.flatten ++ x.challenges)

/-- `ProtoGalaxyAccumulatorInstance<F>`: a native instance plus the beta
challenges and the error scalar. -/
structure ProtoGalaxyAccumulatorInstance (LIMBS : ℕ) (F : Type) where
  ins : NativePlonkInstance LIMBS F
  betas : List F
  e : F

/-- `AbsorbInRO for ProtoGalaxyAccumulatorInstance`: absorb the inner
instance, then the betas, then the error scalar. -/
def ProtoGalaxyAccumulatorInstance.absorb_into {LIMBS : ℕ}
    (a : ProtoGalaxyAccumulatorInstance LIMBS F) (ro : RO F) : RO F :=
  ((a.ins.absorb_into ro).absorb_field_iter a.betas).absorb_field a.e

/-- `nifs::protogalaxy::Proof<F>`: the two polynomials of a protogalaxy
folding step, each a coefficient vector. -/
structure ProtoProof (F : Type) where
  poly_F : List F
  poly_K : List F

/-- `SelfTrace<F>`: the native-track running accumulator, the incoming
instance, and the step's proof. -/
structure SelfTrace (LIMBS : ℕ) (F : Type) where
  input_accumulator : ProtoGalaxyAccumulatorInstance LIMBS F
  incoming : NativePlonkInstance LIMBS F
  proof : ProtoProof F

/-- `SangriaAccumulatorInstance<F>`: a support instance plus the
error-term commitment and the slack scalar `u`. -/
structure SangriaAccumulatorInstance (F : Type) where
  ins : SupportPlonkInstance F
  E_commitment : F × F
  u : F

/-- `AbsorbInRO for SangriaAccumulatorInstance`: absorb the inner
instance, then `u`, then the error-commitment coordinates, then an
unconditional zero padding element. -/
def SangriaAccumulatorInstance.absorb_into (a : SangriaAccumulatorInstance F)
    (ro : RO F) : RO F :=
  ((((a.ins.absorb_into ro).absorb_field a.u).absorb_field
    a.E_commitment.1).absorb_field a.E_commitment.2).absorb_field 0

/-- `SupportIncoming<F>`: one incoming support instance with its
cross-term commitment proof. -/
structure SupportIncoming (F : Type) where
  inst : SupportPlonkInstance F
  proof : List (F × F)

/-- `SupportTrace<F>`: the support-track running accumulator and the one
to three incoming instances. -/
structure SupportTrace (F : Type) where
  input_accumulator : SangriaAccumulatorInstance F
  incoming : List (SupportIncoming F)

/-- `Input<ARITY, F>`: the full per-step witness. -/
structure Input (LIMBS ARITY : ℕ) (F : Type) where
  pp_digest : F × F
  self_trace : SelfTrace LIMBS F
  support_trace : SupportTrace F
  step : ℕ
  z_0 : Fin ARITY → F
  z_i : Fin ARITY → F

/-- `AbsorbInRO for Input`: absorb the native-track accumulator, the
support-track accumulator, the digest coordinates, the step counter cast
through `u64` into the field, then `z_0` and `z_i`. -/
def Input.absorb_into {LIMBS ARITY : ℕ} (inp : Input LIMBS ARITY F)
    (ro : RO F) : RO F :=
  (((((inp.support_trace.input_accumulator.absorb_into
    (inp.self_trace.input_accumulator.absorb_into ro)).absorb_field
      inp.pp_digest.1).absorb_field inp.pp_digest.2).absorb_field
      ((inp.step % 2 ^ 64 : ℕ) : F)).absorb_field_iter
      (List.ofFn inp.z_0)).absorb_field_iter (List.ofFn inp.z_i)

/-- The canonical absorb order of a `NativePlonkInstance`: commitment
limbs (x then y per point, points in order), then the public-input
vectors flattened in column order, then the challenges in order. -/
def NativePlonkInstance.absorbStream {LIMBS : ℕ}
    (x : NativePlonkInstance LIMBS F) : List F :=
  (x.W_commitments.flatMap fun pt => List.ofFn pt.x ++ List.ofFn pt.y) ++
    x.instances.flatten ++ x.challenges

/-- The canonical absorb order of a `ProtoGalaxyAccumulatorInstance`:
instance order, then the betas in order, then the error scalar. -/
def ProtoGalaxyAccumulatorInstance.absorbStream {LIMBS : ℕ}
    (a : ProtoGalaxyAccumulatorInstance LIMBS F) : List F :=
  a.ins.absorbStream ++ a.betas ++ [a.e]

/-- The canonical absorb order of a `SupportPlonkInstance`: commitment
coordinates (x then y per point, points in order), then the public-input
vectors flattened in column order, then the challenges in order. -/
def SupportPlonkInstance.absorbStream (x : SupportPlonkInstance F) : List F :=
  (x.W_commitments.flatMap fun c => [c.1, c.2]) ++ x.instances.flatten ++
    x.challenges

/-- The canonical absorb order of a `SangriaAccumulatorInstance`:
instance order, then the slack scalar `u`, then the error-commitment
x and y coordinates, then one fixed zero padding element. -/
def SangriaAccumulatorInstance.absorbStream
    (a : SangriaAccumulatorInstance F) : List F :=
  a.ins.absorbStream ++ [a.u, a.E_commitment.1, a.E_commitment.2, 0]

/-- Modelled from the spec: `util::fe_to_fe`, the exact projection
between the scalar fields of the two curves.  The spec's round-trip
property makes it exact on every value this core feeds it; on the single
carrier field of this embedding it is the identity. -/
def fe_to_fe (x : F) : F := x

/-- Modelled from the spec: `UnivariatePoly::new_zeroed(len)` — a
coefficient vector of `len` zeros. -/
def new_zeroed (n : ℕ) : List F :=
  List.replicate n 0

/-- Collects a list of optional values, `none` (the Rust panic on a
point at infinity) propagating. -/
def optionList : List (Option α) → Option (List α)
  | [] => some []
  | none :: _ => none
  | some a :: l => (optionList l).map (fun t => a :: t)

/-- The fields of `plonk::PlonkStructure` consumed by
`SelfTrace::new_initial` and `SupportTrace::new_initial`: the
public-input column widths and the challenge count, together with the
counts this code reads off the structure through external helpers —
`betas_count`, `fft_points_count_F` and `fft_points_count_K` stand for
the values of `PolyContext::new(structure, 1)`, and `degree_for_folding`
for `get_degree_for_folding()`; the spec treats all four as opaque
shape data. -/
structure PlonkStructure where
  num_io : List ℕ
  num_challenges : ℕ
  betas_count : ℕ
  fft_points_count_F : ℕ
  fft_points_count_K : ℕ
  degree_for_folding : ℕ

/-- `nifs::sangria::FoldablePlonkInstance` as consumed here: commitment
points (`none` marking the group identity, which has no affine
coordinates), public-input vectors and challenges. -/
structure FoldablePlonkInstance (F : Type) where
  W_commitments : List (Option (F × F))
  instances : List (List F)
  challenges : List F

/-- `SelfTrace::new_initial`: the incoming-commitment count is 1 for 0
or 1 native challenges, 2 for 2, 3 for 3, and a fatal `unreachable!`
otherwise (modelled as `none`); the accumulator and incoming instance
are zero-valued with the shape of the native circuit, the betas and the
two proof polynomials zero-valued with the externally supplied counts. -/
def SelfTrace.new_initial {LIMBS : ℕ} (s : PlonkStructure) :
    Option (SelfTrace LIMBS F) :=
  (match s.num_challenges with
    | 0 => some 1
    | 1 => some 1
    | 2 => some 2
    | 3 => some 3
    | _ + 4 => none).map fun W_commitments_len =>
  let ins : NativePlonkInstance LIMBS F :=
    { W_commitments := List.replicate W_commitments_len BigUintPoint.identity
      instances := s.num_io.map fun len => List.replicate len 0
      challenges := List.replicate s.num_challenges 0 }
  { input_accumulator :=
      { ins := ins, betas := List.replicate s.betas_count 0, e := 0 }
    incoming := ins
    proof :=
      { poly_F := new_zeroed s.fft_points_count_F
        poly_K := new_zeroed s.fft_points_count_K } }

/-- `SelfTrace::W_commitments_len`. -/
def SelfTrace.W_commitments_len {LIMBS : ℕ} (t : SelfTrace LIMBS F) : ℕ :=
  t.input_accumulator.ins.W_commitments.length

/-- `SupportTrace::new_initial`: coordinates of the supplied support
instance (panicking — `none` — on a point at infinity), `fe_to_fe`
projected; one zero accumulator; `W_commitments_len` copies of the
incoming pairing whose proof holds `degree_for_folding - 1` (saturating)
zero cross-term commitments. -/
def SupportTrace.new_initial (sps : PlonkStructure)
    (spi : FoldablePlonkInstance F) (W_commitments_len : ℕ) :
    Option (SupportTrace F) :=
  (optionList spi.W_commitments).map fun ws =>
  let ins : SupportPlonkInstance F :=
    { W_commitments := ws
      instances := spi.instances.map fun col => col.map fe_to_fe
      challenges := spi.challenges.map fe_to_fe }
  let pairing : SupportIncoming F :=
    { inst := ins
      proof := List.replicate (sps.degree_for_folding - 1) (0, 0) }
  { input_accumulator := { ins := ins, E_commitment := (0, 0), u := 0 }
    incoming := List.replicate W_commitments_len pairing }

/-- `Input::new_initial`: the zero digest and states, step 0, the
initial self trace, and the support trace sized by the self trace's
commitment count. -/
def Input.new_initial {LIMBS ARITY : ℕ} (nps sps : PlonkStructure)
    (spi : FoldablePlonkInstance F) : Option (Input LIMBS ARITY F) := do
  let self_trace ← (SelfTrace.new_initial nps : Option (SelfTrace LIMBS F))
  let support_trace ← SupportTrace.new_initial sps spi
    self_trace.W_commitments_len
  some
    { pp_digest := (0, 0)
      self_trace := self_trace
      support_trace := support_trace
      step := 0
      z_0 := fun _ => 0
      z_i := fun _ => 0 }

/-- `Input::get_without_witness`: every numeric field zeroed, every
vector length read off `self` and preserved. -/
def Input.get_without_witness {LIMBS ARITY : ℕ}
    (inp : Input LIMBS ARITY F) : Input LIMBS ARITY F :=
  { pp_digest := (0, 0)
    self_trace :=
      { input_accumulator :=
          { ins :=
              { W_commitments := List.replicate
                  inp.self_trace.input_accumulator.ins.W_commitments.length
                  BigUintPoint.identity
                instances := inp.self_trace.input_accumulator.ins.instances.map
                  fun v => List.replicate v.length 0
                challenges := List.replicate
                  inp.self_trace.input_accumulator.ins.challenges.length 0 }
            betas := List.replicate
              inp.self_trace.input_accumulator.betas.length 0
            e := 0 }
        incoming :=
          { W_commitments := List.replicate
              inp.self_trace.incoming.W_commitments.length
              BigUintPoint.identity
            instances := inp.self_trace.incoming.instances.map
              fun v => List.replicate v.length 0
            challenges := List.replicate
              inp.self_trace.incoming.challenges.length 0 }
        proof :=
          { poly_F := new_zeroed inp.self_trace.proof.poly_F.length
            poly_K := new_zeroed inp.self_trace.proof.poly_K.length } }
    support_trace :=
      { input_accumulator :=
          { ins :=
              { W_commitments := List.replicate
                  inp.support_trace.input_accumulator.ins.W_commitments.length
                  (0, 0)
                instances :=
                  inp.support_trace.input_accumulator.ins.instances.map
                    fun v => List.replicate v.length 0
                challenges := List.replicate
                  inp.support_trace.input_accumulator.ins.challenges.length 0 }
            E_commitment := (0, 0)
            u := 0 }
        incoming := inp.support_trace.incoming.map fun incoming =>
          { inst :=
              { W_commitments := List.replicate
                  incoming.inst.W_commitments.length (0, 0)
                instances := incoming.inst.instances.map
                  fun v => List.replicate v.length 0
                challenges := List.replicate
                  incoming.inst.challenges.length 0 }
            proof := List.replicate incoming.proof.length (0, 0) } }
    step := 0
    z_0 := fun _ => 0
    z_i := fun _ => 0 }

/-- `SCInstancesHashAcc`: the step-circuit instances hash accumulator
field of a relaxed sangria instance. -/
inductive SCInstancesHashAcc (F : Type) where
  | None : SCInstancesHashAcc F
  | Hashed : F → SCInstancesHashAcc F

/-- `nifs::sangria::RelaxedPlonkInstance` as consumed by
`SangriaAccumulatorInstance::new`: commitment points (`none` marking the
group identity), consistency markers, challenges, the error commitment,
the slack scalar and the hash-accumulator field. -/
structure RelaxedPlonkInstance (F : Type) where
  W_commitments : List (Option (F × F))
  consistency_markers : List F
  challenges : List F
  E_commitment : Option (F × F)
  u : F
  step_circuit_instances_hash_accumulator : SCInstancesHashAcc F

/-- `SangriaAccumulatorInstance::new`: asserts the hash-accumulator
field is `None`, extracts affine coordinates of every `W` commitment and
of the error commitment (each panicking — `none` — at the group
identity), projects markers, challenges and `u` through `fe_to_fe`. -/
def SangriaAccumulatorInstance.new (acc : RelaxedPlonkInstance F) :
    Option (SangriaAccumulatorInstance F) :=
  match acc.step_circuit_instances_hash_accumulator with
  | .Hashed _ => none
  | .None => do
    let ws ← optionList acc.W_commitments
    let e ← acc.E_commitment
    some
      { ins :=
          { W_commitments := ws
            instances := [acc.consistency_markers.map fe_to_fe]
            challenges := acc.challenges.map fe_to_fe }
        E_commitment := e
        u := fe_to_fe acc.u }

/-- The nested vector lengths of a `NativePlonkInstance`. -/
def NativePlonkInstance.shape {LIMBS : ℕ}
    (x : NativePlonkInstance LIMBS F) : ℕ × List ℕ × ℕ :=
  (x.W_commitments.length, x.instances.map List.length, x.challenges.length)

/-- The nested vector lengths of a `SupportPlonkInstance`. -/
def SupportPlonkInstance.shape (x : SupportPlonkInstance F) :
    ℕ × List ℕ × ℕ :=
  (x.W_commitments.length, x.instances.map List.length, x.challenges.length)

/-- The nested vector lengths of a `SupportIncoming`. -/
def SupportIncoming.shape (x : SupportIncoming F) : (ℕ × List ℕ × ℕ) × ℕ :=
  (x.inst.shape, x.proof.length)

/-- The nested vector lengths of an `Input`: native accumulator instance
and betas, native incoming, the two proof polynomials, support
accumulator instance, and every support incoming pairing. -/
def Input.shape {LIMBS ARITY : ℕ} (inp : Input LIMBS ARITY F) :
    ((ℕ × List ℕ × ℕ) × ℕ) × (ℕ × List ℕ × ℕ) × (ℕ × ℕ) ×
      (ℕ × List ℕ × ℕ) × List ((ℕ × List ℕ × ℕ) × ℕ) :=
  ((inp.self_trace.input_accumulator.ins.shape,
    inp.self_trace.input_accumulator.betas.length),
   inp.self_trace.incoming.shape,
   (inp.self_trace.proof.poly_F.length, inp.self_trace.proof.poly_K.length),
   inp.support_trace.input_accumulator.ins.shape,
   inp.support_trace.incoming.map SupportIncoming.shape)

/-- Every numeric field of a `NativePlonkInstance` is zero. -/
def NativePlonkInstance.IsZero {LIMBS : ℕ}
    (x : NativePlonkInstance LIMBS F) : Prop :=
  (∀ pt ∈ x.W_commitments, (∀ i, pt.x i = 0) ∧ ∀ i, pt.y i = 0) ∧
    (∀ v ∈ x.instances, ∀ a ∈ v, a = 0) ∧ ∀ c ∈ x.challenges, c = 0

/-- Every numeric field of a `SupportPlonkInstance` is zero. -/
def SupportPlonkInstance.IsZero (x : SupportPlonkInstance F) : Prop :=
  (∀ w ∈ x.W_commitments, w = (0, 0)) ∧
    (∀ v ∈ x.instances, ∀ a ∈ v, a = 0) ∧ ∀ c ∈ x.challenges, c = 0

/-- Every numeric field of an `Input` is zero: the digest pair, the
whole native trace, the whole support trace, the step counter and both
state vectors. -/
def Input.IsZero {LIMBS ARITY : ℕ} (inp : Input LIMBS ARITY F) : Prop :=
  inp.pp_digest = (0, 0) ∧
  inp.self_trace.input_accumulator.ins.IsZero ∧
  (∀ b ∈ inp.self_trace.input_accumulator.betas, b = 0) ∧
  inp.self_trace.input_accumulator.e = 0 ∧
  inp.self_trace.incoming.IsZero ∧
  (∀ a ∈ inp.self_trace.proof.poly_F, a = 0) ∧
  (∀ a ∈ inp.self_trace.proof.poly_K, a = 0) ∧
  inp.support_trace.input_accumulator.ins.IsZero ∧
  inp.support_trace.input_accumulator.E_commitment = (0, 0) ∧
  inp.support_trace.input_accumulator.u = 0 ∧
  (∀ pr ∈ inp.support_trace.incoming,
    pr.inst.IsZero ∧ ∀ c ∈ pr.proof, c = (0, 0)) ∧
  inp.step = 0 ∧ (∀ i, inp.z_0 i = 0) ∧ ∀ i, inp.z_i i = 0

instance fact_prime_five : Fact (Nat.Prime 5) :=
  ⟨by norm_num⟩

/-- A small concrete parameter table over `ZMod 5` with `T = 2`,
`RATE = 2`, one full round per half and one sparse round, used to
instantiate universally quantified theorems. -/
def p0 : PoseidonSpec (ZMod 5) where
  T := 2
  RATE := 2
  hT := Nat.one_lt_two
  hRATE := Nat.zero_lt_two
  r_f_half := 1
  r_p := 1
  startC := fun _ _ => 1
  endC := fun _ _ => 2
  midC := fun _ => 3
  mds := fun _ _ => 1
  preSparse := fun _ _ => 2
  sparseRow := fun _ j => (j : ZMod 5) + 1
  sparseColHat := fun _ k => (k : ZMod 5) + 2
  init := fun _ => 0

/-- A degenerate concrete parameter table over `ZMod 5` with `T = 2`,
`RATE = 2` and no rounds at all, so a permutation is exactly the
pre-round addition; it isolates the chunking behaviour of `squeeze`. -/
def p1 : PoseidonSpec (ZMod 5) where
  T := 2
  RATE := 2
  hT := Nat.one_lt_two
  hRATE := Nat.zero_lt_two
  r_f_half := 0
  r_p := 0
  startC := fun _ _ => 0
  endC := fun _ _ => 0
  midC := fun _ => 0
  mds := fun _ _ => 0
  preSparse := fun _ _ => 0
  sparseRow := fun _ _ => 0
  sparseColHat := fun _ _ => 0
  init := fun _ => 0

/-- A concrete state for the parameter table `p0`. -/
def s0 : Fin p0.T → ZMod 5 :=
  fun j => ((j : ℕ) : ZMod 5) + 3

/-- Slot `1` of a `p0`-width state. -/
def i1 : Fin p0.T :=
  ⟨1, p0.hT⟩

/-- A concrete native circuit shape with two challenges. -/
def nps0 : PlonkStructure where
  num_io := [2]
  num_challenges := 2
  betas_count := 3
  fft_points_count_F := 1
  fft_points_count_K := 2
  degree_for_folding := 4

/-- A concrete support circuit shape. -/
def sps0 : PlonkStructure where
  num_io := [1]
  num_challenges := 0
  betas_count := 0
  fft_points_count_F := 0
  fft_points_count_K := 0
  degree_for_folding := 3

/-- A concrete support instance with one finite commitment point. -/
def spi0 : FoldablePlonkInstance (ZMod 5) where
  W_commitments := [some (1, 2)]
  instances := [[3, 4]]
  challenges := [2]

theorem pow5_eq (v : F) : pow5 v = v ^ 5 := by
  unfold pow5
  ring

theorem next_state_val_neg_one {T : ℕ} (state q_1 q_5 : Fin T → F) (rc : F) :
    next_state_val state q_1 q_5 (-1) rc
      = rc + ∑ i, (pow5 (state i) * q_5 i + state i * q_1 i) := by
  unfold next_state_val
  rw [neg_neg, inv_one, mul_one]

theorem sum_mul_ite_zero {T : ℕ} (a : Fin T) (ha : (a : ℕ) = 0)
    (f : Fin T → F) (c : F) :
    (∑ j, f j * (if (j : ℕ) = 0 then c else 0)) = f a * c := by
  rw [Finset.sum_eq_single a]
  · rw [if_pos ha]
  · intro b _ hb
    rw [if_neg fun h => hb (Fin.ext (h.trans ha.symm)), mul_zero]
  · exact fun h => absurd (Finset.mem_univ _) h

theorem sum_mul_ite_zero_compl {T : ℕ} (a : Fin T) (ha : (a : ℕ) = 0)
    (f g : Fin T → F) :
    (∑ j, f j * (if (j : ℕ) = 0 then 0 else g j))
      = ∑ j in Finset.univ.erase a, f j * g j := by
  rw [← Finset.sum_erase_add Finset.univ _ (Finset.mem_univ a), if_pos ha,
    mul_zero, add_zero]
  refine Finset.sum_congr rfl fun j hj => ?_
  rw [if_neg fun h => (Finset.mem_erase.1 hj).1 (Fin.ext (h.trans ha.symm))]

theorem sum_mul_ite_split {T : ℕ} (a : Fin T) (ha : (a : ℕ) = 0)
    (f b : Fin T → F) (c : F) :
    (∑ j, f j * (if (j : ℕ) = 0 then c else b j))
      = f a * c + ∑ j in Finset.univ.erase a, f j * b j := by
  rw [← Finset.sum_erase_add Finset.univ _ (Finset.mem_univ a), if_pos ha,
    add_comm]
  congr 1
  refine Finset.sum_congr rfl fun j hj => ?_
  rw [if_neg fun h => (Finset.mem_erase.1 hj).1 (Fin.ext (h.trans ha.symm))]

theorem sum_mul_ite_one {T : ℕ} (i : Fin T) (f : Fin T → F) :
    (∑ j, f j * (if j = i then 1 else 0)) = f i := by
  rw [Finset.sum_eq_single i]
  · rw [if_pos rfl, mul_one]
  · intro b _ hb
    rw [if_neg hb, mul_zero]
  · exact fun h => absurd (Finset.mem_univ _) h

/-- C3: the value assigned by `partial_round` for slot 0 is
`row[0] * (s[0]^5 + rc) + Σ_{j ∈ [1,T)} row[j] * s[j]`, and for every
slot `i ∈ [1,T)` it is `col_hat[i-1] * (s[0]^5 + rc) + s[i]`: only slot
0 receives the degree-5 S-box and the mixing is the rank-1 sparse
update. -/
theorem partial_round_formulas (p : PoseidonSpec F) (r : ℕ)
    (s : Fin p.T → F) :
    mid_round_val p r p.slot0 s
      = p.sparseRow r p.slot0 * (s p.slot0 ^ 5 + p.midC r)
        + ∑ j in Finset.univ.erase p.slot0, p.sparseRow r j * s j
    ∧ ∀ i : Fin p.T, (i : ℕ) ≠ 0 →
        mid_round_val p r i s
          = p.sparseColHat r ((i : ℕ) - 1) * (s p.slot0 ^ 5 + p.midC r)
            + s i := by
  constructor
  · unfold mid_round_val
    rw [if_pos (show ((p.slot0 : ℕ) = 0) from rfl), next_state_val_neg_one,
      Finset.sum_add_distrib,
      sum_mul_ite_zero p.slot0 rfl, sum_mul_ite_zero_compl p.slot0 rfl,
      pow5_eq,
      Finset.sum_congr rfl fun j _ => mul_comm (s j) (p.sparseRow r j)]
    ring
  · intro i h0
    unfold mid_round_val
    rw [if_neg h0, next_state_val_neg_one, Finset.sum_add_distrib,
      sum_mul_ite_zero p.slot0 rfl, sum_mul_ite_one i, pow5_eq]
    ring

/-- Witness for C3 at the concrete table `p0`, slot `1`. -/
theorem partial_round_formulas_witness :
    ((i1 : ℕ) ≠ 0) ∧
      mid_round_val p0 0 i1 s0
        = p0.sparseColHat 0 ((i1 : ℕ) - 1) * (s0 p0.slot0 ^ 5 + p0.midC 0)
          + s0 i1 :=
  ⟨by decide, (partial_round_formulas p0 0 s0).2 i1 (by decide)⟩

theorem full_round_val_eq (p : PoseidonSpec F) (b : Bool) (r : ℕ)
    (i : Fin p.T) (s : Fin p.T → F) :
    full_round_val p b r i s = native_full_round p b r s i := by
  unfold full_round_val native_full_round
  rw [next_state_val_neg_one,
    Finset.sum_congr rfl fun j _ =>
      show pow5 (s j) * full_round_mds p b r i j + s j * 0
          = full_round_mds p b r i j * s j ^ 5 by rw [pow5_eq]; ring,
    Finset.sum_congr rfl fun j _ =>
      mul_add (full_round_mds p b r i j) (s j ^ 5) (full_round_rcs p b r j),
    Finset.sum_add_distrib, add_comm]

theorem mid_round_val_eq (p : PoseidonSpec F) (r : ℕ) (i : Fin p.T)
    (s : Fin p.T → F) :
    mid_round_val p r i s = native_mid_round p r s i := by
  unfold mid_round_val native_mid_round
  by_cases h0 : (i : ℕ) = 0
  · rw [if_pos h0, if_pos h0, next_state_val_neg_one, Finset.sum_add_distrib,
      sum_mul_ite_zero p.slot0 rfl, sum_mul_ite_zero_compl p.slot0 rfl,
      sum_mul_ite_split p.slot0 rfl, pow5_eq,
      Finset.sum_congr rfl fun j _ => mul_comm (s j) (p.sparseRow r j)]
    ring
  · rw [if_neg h0, if_neg h0, next_state_val_neg_one, Finset.sum_add_distrib,
      sum_mul_ite_zero p.slot0 rfl, sum_mul_ite_one i, pow5_eq]
    ring

/-- C1: for every parameter table, every width-`T` initial state and
every input list of at most `RATE` elements, the values assigned by the
circuit permutation gadget (per-row values computed by
`next_state_val`) coincide slot for slot with the native
field-arithmetic Poseidon permutation on the same state and input. -/
theorem permutation_refines_native (p : PoseidonSpec F)
    (init_state : Fin p.T → F) (inputs : List F)
    (h : inputs.length ≤ p.RATE) :
    permutation p inputs init_state = native_permutation p inputs init_state := by
  have hfull : ∀ b : Bool,
      (fun (st : Fin p.T → F) (r : ℕ) => fun i => full_round_val p b r i st)
        = fun st r => native_full_round p b r st := by
    intro b
    funext st r
    funext i
    exact full_round_val_eq p b r i st
  have hmid :
      (fun (st : Fin p.T → F) (r : ℕ) => fun i => mid_round_val p r i st)
        = fun st r => native_mid_round p r st := by
    funext st r
    funext i
    exact mid_round_val_eq p r i st
  simp only [permutation, native_permutation]
  rw [hfull true, hfull false, hmid]
  rfl

/-- Witness for C1 at the concrete table `p0`. -/
theorem permutation_refines_native_witness :
    ([(2 : ZMod 5)].length ≤ p0.RATE) ∧
      permutation p0 [(2 : ZMod 5)] s0 = native_permutation p0 [(2 : ZMod 5)] s0 :=
  ⟨by decide, permutation_refines_native p0 s0 [(2 : ZMod 5)] (by decide)⟩

theorem chunksFuel_congr (r : ℕ) :
    ∀ (f₁ : ℕ) (l : List α) (f₂ : ℕ), l.length ≤ f₁ → l.length ≤ f₂ →
      chunksFuel r f₁ l = chunksFuel r f₂ l := by
  intro f₁
  induction f₁ with
  | zero =>
    intro l f₂ h1 _
    have hl : l = [] := List.length_eq_zero.1 (Nat.le_zero.1 h1)
    subst hl
    cases f₂ <;> rfl
  | succ f ih =>
    intro l f₂ h1 h2
    cases l with
    | nil => cases f₂ <;> rfl
    | cons a l' =>
      cases f₂ with
      | zero => simp at h2
      | succ f₂' =>
        show (a :: l'.take (r - 1)) :: chunksFuel r f (l'.drop (r - 1))
            = (a :: l'.take (r - 1)) :: chunksFuel r f₂' (l'.drop (r - 1))
        have hd : (l'.drop (r - 1)).length ≤ l'.length := by
          rw [List.length_drop]
          omega
        simp only [List.length_cons] at h1 h2
        exact congrArg _ (ih (l'.drop (r - 1)) f₂'
          (le_trans hd (by omega)) (le_trans hd (by omega)))

theorem chunksList_cons (r' : ℕ) (a : α) (l : List α) :
    chunksList (r' + 1) (a :: l)
      = (a :: l.take r') :: chunksList (r' + 1) (l.drop r') := by
  show (a :: l.take (r' + 1 - 1)) :: chunksFuel (r' + 1) l.length (l.drop (r' + 1 - 1))
      = (a :: l.take r') :: chunksFuel (r' + 1) (l.drop r').length (l.drop r')
  simp only [Nat.add_sub_cancel]
  exact congrArg _ (chunksFuel_congr (r' + 1) l.length (l.drop r')
    (l.drop r').length (by rw [List.length_drop]; omega) (Nat.le_refl _))

theorem fullChunksFuel_congr (r : ℕ) :
    ∀ (f₁ : ℕ) (l : List α) (f₂ : ℕ), l.length ≤ f₁ → l.length ≤ f₂ →
      fullChunksFuel r f₁ l = fullChunksFuel r f₂ l := by
  intro f₁
  induction f₁ with
  | zero =>
    intro l f₂ h1 _
    have hl : l = [] := List.length_eq_zero.1 (Nat.le_zero.1 h1)
    subst hl
    cases f₂ with
    | zero => rfl
    | succ f₂' =>
      show [] = if r ≤ ([] : List α).length ∧ 0 < r then _ else []
      rw [if_neg (by simp only [List.length_nil]; omega)]
  | succ f ih =>
    intro l f₂ h1 h2
    cases f₂ with
    | zero =>
      have hl : l = [] := List.length_eq_zero.1 (Nat.le_zero.1 h2)
      subst hl
      show (if r ≤ ([] : List α).length ∧ 0 < r then _ else []) = []
      rw [if_neg (by simp only [List.length_nil]; omega)]
    | succ f₂' =>
      show (if r ≤ l.length ∧ 0 < r then
          l.take r :: fullChunksFuel r f (l.drop r) else [])
        = if r ≤ l.length ∧ 0 < r then
          l.take r :: fullChunksFuel r f₂' (l.drop r) else []
      by_cases hc : r ≤ l.length ∧ 0 < r
      · rw [if_pos hc, if_pos hc]
        have hd : (l.drop r).length = l.length - r := List.length_drop r l
        exact congrArg _ (ih (l.drop r) f₂' (by omega) (by omega))
      · rw [if_neg hc, if_neg hc]

theorem fullChunks_eq (r : ℕ) (l : List α) :
    fullChunks r l
      = if r ≤ l.length ∧ 0 < r then l.take r :: fullChunks r (l.drop r)
        else [] := by
  cases l with
  | nil =>
    show fullChunksFuel r 0 [] = _
    rw [if_neg (by simp only [List.length_nil]; omega)]
    rfl
  | cons a l' =>
    show (if r ≤ (a :: l').length ∧ 0 < r then
        (a :: l').take r :: fullChunksFuel r l'.length ((a :: l').drop r)
      else []) = _
    by_cases hc : r ≤ (a :: l').length ∧ 0 < r
    · rw [if_pos hc, if_pos hc]
      refine congrArg _ (fullChunksFuel_congr r l'.length _
        ((a :: l').drop r).length ?_ (Nat.le_refl _))
      rw [List.length_drop, List.length_cons]
      omega
    · rw [if_neg hc, if_neg hc]

theorem chunksList_decomp (r : ℕ) (hr : 0 < r) :
    ∀ (n : ℕ) (l : List α), l.length ≤ n →
      chunksList r l = fullChunks r l ++
        (if l.length % r = 0 then [] else [l.drop (l.length / r * r)]) := by
  intro n
  induction n with
  | zero =>
    intro l hl
    have h : l = [] := List.length_eq_zero.1 (Nat.le_zero.1 hl)
    subst h
    rw [fullChunks_eq]
    rw [if_neg (by simp only [List.length_nil]; omega)]
    simp [chunksList, chunksFuel]
  | succ n ih =>
    intro l hl
    cases l with
    | nil =>
      rw [fullChunks_eq]
      rw [if_neg (by simp only [List.length_nil]; omega)]
      simp [chunksList, chunksFuel]
    | cons a l' =>
      obtain ⟨r', rfl⟩ : ∃ r'', r = r'' + 1 :=
        ⟨r - 1, (Nat.succ_pred_eq_of_pos hr).symm⟩
      rw [chunksList_cons, fullChunks_eq]
      by_cases hlen : r' + 1 ≤ (a :: l').length
      · rw [if_pos ⟨hlen, hr⟩, List.cons_append]
        simp only [List.take_succ_cons, List.drop_succ_cons]
        refine congrArg _ ?_
        rw [ih (l'.drop r') (by rw [List.length_drop]; simp only
          [List.length_cons] at hl; omega)]
        refine congrArg _ ?_
        have hk : (l'.drop r').length = (a :: l').length - (r' + 1) := by
          rw [List.length_drop, List.length_cons]
          omega
        have hmod : (a :: l').length % (r' + 1)
            = (l'.drop r').length % (r' + 1) := by
          rw [hk]
          exact Nat.mod_eq_sub_mod hlen
        have hdiv : (a :: l').length / (r' + 1)
            = (l'.drop r').length / (r' + 1) + 1 := by
          rw [hk]
          exact Nat.div_eq_sub_div (Nat.succ_pos r') hlen
        rw [hmod, hdiv]
        by_cases hz : (l'.drop r').length % (r' + 1) = 0
        · rw [if_pos hz, if_pos hz]
        · rw [if_neg hz, if_neg hz]
          refine congrArg (fun t => [t]) ?_
          rw [show ((l'.drop r').length / (r' + 1) + 1) * (r' + 1)
              = (r' + 1) + (l'.drop r').length / (r' + 1) * (r' + 1) by ring]
          rw [← List.drop_drop, List.drop_succ_cons]
      · rw [if_neg fun hc => hlen hc.1]
        simp only [List.length_cons] at hlen
        have hlt : l'.length < r' := by omega
        have htake : l'.take r' = l' := List.take_of_length_le (by omega)
        have hdropn : l'.drop r' = [] := List.drop_eq_nil_iff.2 (by omega)
        have hmod : (a :: l').length % (r' + 1) = l'.length + 1 := by
          rw [List.length_cons]
          exact Nat.mod_eq_of_lt (by omega)
        have hdiv : (a :: l').length / (r' + 1) = 0 := by
          rw [List.length_cons]
          exact Nat.div_eq_of_lt (by omega)
        rw [htake, hdropn, hmod, hdiv]
        rw [if_neg (by omega)]
        show [a :: l'] = [] ++ [(a :: l').drop (0 * (r' + 1))]
        rw [Nat.zero_mul, List.drop_zero, List.nil_append]

/-- C2 counterexample: with the degenerate table `p1` (T = 2, RATE = 2,
no rounds), the code's `squeeze` disagrees with the claimed behaviour on
the empty buffer (the code runs the trailing empty-input permutation
although the length 0 is not a non-zero multiple of RATE) and on a
one-element buffer (the code runs a permutation on the trailing partial
chunk, which the claim does not account for). -/
theorem squeeze_claimed_counterexample :
    squeeze p1 [] ≠ squeezeClaimed p1 []
      ∧ squeeze p1 [(1 : ZMod 5)] ≠ squeezeClaimed p1 [(1 : ZMod 5)] := by
  decide

/-- C2 as amended: `squeeze` initializes the state to the fixed initial
vector, runs one permutation per full chunk of `RATE` buffered elements
in order, then one further permutation on the remaining short chunk when
the buffered length is not a multiple of `RATE`, runs one additional
permutation with an empty input chunk if and only if the buffered length
is a multiple of `RATE` (the empty buffer included), and returns the
state element at index 1. -/
theorem squeeze_eq_amended (p : PoseidonSpec F) (buf : List F) :
    squeeze p buf = squeezeAmended p buf := by
  unfold squeeze squeezeState squeezeAmended
  rw [chunksList_decomp p.RATE p.hRATE buf.length buf (Nat.le_refl _)]

/-- C9: `squeeze` neither clears nor consumes the absorb buffer — the
chip's buffer after a squeeze is exactly the buffer before it, so a
subsequent squeeze after absorbing `xs` hashes the previously absorbed
elements again, prefixed before `xs`. -/
theorem squeeze_preserves_buffer (p : PoseidonSpec F)
    (c : PoseidonChipState F) (xs : List F) :
    (squeezeChip p c).2.buf = c.buf ∧
      (squeezeChip p (updateChip (squeezeChip p c).2 xs)).1
        = squeeze p (c.buf ++ xs) :=
  ⟨rfl, rfl⟩

theorem absorb_field_buf (ro : RO F) (x : F) :
    (ro.absorb_field x).buf = ro.buf ++ [x] :=
  rfl

theorem absorb_field_iter_buf (ro : RO F) (xs : List F) :
    (ro.absorb_field_iter xs).buf = ro.buf ++ xs := by
  induction xs generalizing ro with
  | nil => simp [RO.absorb_field_iter]
  | cons a l ih =>
    show ((ro.absorb_field a).absorb_field_iter l).buf = _
    rw [ih, absorb_field_buf]
    simp

theorem absorb_iter_buf (ro : RO F) (l : List α) (f : α → RO F → RO F)
    (g : α → List F) (h : ∀ a (ro' : RO F), (f a ro').buf = ro'.buf ++ g a) :
    (ro.absorb_iter l f).buf = ro.buf ++ l.flatMap g := by
  induction l generalizing ro with
  | nil => simp [RO.absorb_iter]
  | cons a t ih =>
    show ((f a ro).absorb_iter t f).buf = _
    rw [ih, h a ro]
    simp

theorem bigUintPoint_absorb_buf {LIMBS : ℕ} (pt : BigUintPoint LIMBS F)
    (ro : RO F) :
    (pt.absorb_into ro).buf = ro.buf ++ (List.ofFn pt.x ++ List.ofFn pt.y) := by
  unfold BigUintPoint.absorb_into
  rw [absorb_field_iter_buf, absorb_field_iter_buf, List.append_assoc]

theorem nativePlonk_absorb_buf {LIMBS : ℕ} (x : NativePlonkInstance LIMBS F)
    (ro : RO F) :
    (x.absorb_into ro).buf = ro.buf ++ x.absorbStream := by
  unfold NativePlonkInstance.absorb_into NativePlonkInstance.absorbStream
  rw [absorb_field_iter_buf, absorb_field_iter_buf,
    absorb_iter_buf ro x.W_commitments BigUintPoint.absorb_into
      (fun pt => List.ofFn pt.x ++ List.ofFn pt.y)
      (fun a ro' => bigUintPoint_absorb_buf a ro')]
  simp

theorem protoAcc_absorb_buf {LIMBS : ℕ}
    (a : ProtoGalaxyAccumulatorInstance LIMBS F) (ro : RO F) :
    (a.absorb_into ro).buf = ro.buf ++ a.absorbStream := by
  unfold ProtoGalaxyAccumulatorInstance.absorb_into
    ProtoGalaxyAccumulatorInstance.absorbStream
  rw [absorb_field_buf, absorb_field_iter_buf, nativePlonk_absorb_buf]
  simp

theorem supportPlonk_absorb_buf (x : SupportPlonkInstance F) (ro : RO F) :
    (x.absorb_into ro).buf = ro.buf ++ x.absorbStream := by
  unfold SupportPlonkInstance.absorb_into SupportPlonkInstance.absorbStream
  rw [absorb_field_iter_buf, absorb_field_iter_buf]
  simp

theorem sangriaAcc_absorb_buf (a : SangriaAccumulatorInstance F) (ro : RO F) :
    (a.absorb_into ro).buf = ro.buf ++ a.absorbStream := by
  unfold SangriaAccumulatorInstance.absorb_into
    SangriaAccumulatorInstance.absorbStream
  rw [absorb_field_buf, absorb_field_buf, absorb_field_buf, absorb_field_buf,
    supportPlonk_absorb_buf]
  simp

/-- C4: `Input::absorb_into` emits exactly: the native-track accumulator
instance in its canonical order, then the support-track accumulator
instance in its canonical order, then digest x, then digest y, then the
step counter as a field element, then every element of `z_0` in index
order, then every element of `z_i` in index order. -/
theorem input_absorb_order {LIMBS ARITY : ℕ} (inp : Input LIMBS ARITY F)
    (ro : RO F) :
    (inp.absorb_into ro).buf
      = ro.buf ++ inp.self_trace.input_accumulator.absorbStream
        ++ inp.support_trace.input_accumulator.absorbStream
        ++ [inp.pp_digest.1, inp.pp_digest.2, ((inp.step % 2 ^ 64 : ℕ) : F)]
        ++ List.ofFn inp.z_0 ++ List.ofFn inp.z_i := by
  unfold Input.absorb_into
  rw [absorb_field_iter_buf, absorb_field_iter_buf, absorb_field_buf,
    absorb_field_buf, absorb_field_buf, sangriaAcc_absorb_buf,
    protoAcc_absorb_buf]
  simp

/-- C5: `SangriaAccumulatorInstance::absorb_into` emits exactly the
inner instance in instance order (commitment coordinates x then y per
point, then the public-input vectors flattened in column order, then the
challenges in order), then the slack scalar `u`, then the
error-commitment x and y coordinates, then one unconditional zero
padding element. -/
theorem sangria_absorb_order (a : SangriaAccumulatorInstance F) (ro : RO F) :
    (a.absorb_into ro).buf
      = ro.buf ++ ((a.ins.W_commitments.flatMap fun c => [c.1, c.2])
        ++ a.ins.instances.flatten ++ a.ins.challenges)
        ++ [a.u, a.E_commitment.1, a.E_commitment.2, (0 : F)] := by
  rw [sangriaAcc_absorb_buf]
  unfold SangriaAccumulatorInstance.absorbStream SupportPlonkInstance.absorbStream
  simp

/-- C6: `get_without_witness` preserves every vector length at every
nesting level (commitment lists, public-input vectors, challenge lists,
betas, polynomial coefficient vectors, incoming-instance list and
cross-term proof lists; the z arities are fixed by the type) and zeroes
every numeric field. -/
theorem get_without_witness_shape_zero {LIMBS ARITY : ℕ}
    (inp : Input LIMBS ARITY F) :
    inp.get_without_witness.shape = inp.shape
      ∧ inp.get_without_witness.IsZero := by
  constructor
  · unfold Input.get_without_witness Input.shape NativePlonkInstance.shape
      SupportPlonkInstance.shape SupportIncoming.shape new_zeroed
    simp [List.map_map, Function.comp]
    intro a _
    unfold SupportPlonkInstance.shape
    simp [List.map_map, Function.comp]
  · unfold Input.get_without_witness Input.IsZero NativePlonkInstance.IsZero
      SupportPlonkInstance.IsZero new_zeroed BigUintPoint.identity
    simp [List.mem_replicate, List.eq_replicate_iff]

theorem optionList_eq_some (l : List (Option α)) (h : ∀ w ∈ l, w.isSome) :
    ∃ ws, optionList l = some ws := by
  induction l with
  | nil => exact ⟨[], rfl⟩
  | cons a t ih =>
    cases a with
    | none =>
      have := h none (List.mem_cons_self none t)
      simp at this
    | some x =>
      obtain ⟨ws, hws⟩ := ih fun w hw => h w (List.mem_cons_of_mem _ hw)
      refine ⟨x :: ws, ?_⟩
      unfold optionList
      rw [hws]
      rfl

theorem optionList_isSome_iff (l : List (Option α)) :
    (optionList l).isSome = true ↔ ∀ w ∈ l, w.isSome := by
  induction l with
  | nil => simp [optionList]
  | cons a t ih =>
    cases a with
    | none => simp [optionList]
    | some x => simp [optionList, ih]

theorem selfTrace_new_initial_eq {LIMBS : ℕ} (nps : PlonkStructure) (len : ℕ)
    (h : (nps.num_challenges = 0 ∧ len = 1) ∨ (nps.num_challenges = 1 ∧ len = 1)
      ∨ (nps.num_challenges = 2 ∧ len = 2)
      ∨ (nps.num_challenges = 3 ∧ len = 3)) :
    ∃ st : SelfTrace LIMBS F,
      SelfTrace.new_initial nps = some st ∧ st.W_commitments_len = len := by
  unfold SelfTrace.new_initial
  rcases h with ⟨h0, hl⟩ | ⟨h0, hl⟩ | ⟨h0, hl⟩ | ⟨h0, hl⟩ <;>
    rw [h0, hl] <;>
    exact ⟨_, rfl, by simp [SelfTrace.W_commitments_len]⟩

theorem selfTrace_new_initial_none {LIMBS : ℕ} (nps : PlonkStructure)
    (h : 3 < nps.num_challenges) :
    (SelfTrace.new_initial nps : Option (SelfTrace LIMBS F)) = none := by
  unfold SelfTrace.new_initial
  obtain ⟨m, hm⟩ : ∃ m, nps.num_challenges = m + 4 :=
    ⟨nps.num_challenges - 4, by omega⟩
  rw [hm]
  rfl

theorem supportTrace_new_initial_eq (sps : PlonkStructure)
    (spi : FoldablePlonkInstance F) (len : ℕ) (ws : List (F × F))
    (hws : optionList spi.W_commitments = some ws) :
    ∃ t : SupportTrace F,
      SupportTrace.new_initial sps spi len = some t ∧
        t.incoming.length = len := by
  unfold SupportTrace.new_initial
  rw [hws]
  exact ⟨_, rfl, by simp⟩

/-- C7: `new_initial` sets the number of incoming support instances to 1
for 0 or 1 native challenges, to 2 for 2 and to 3 for 3, and for a
native challenge count outside `{0, 1, 2, 3}` construction aborts with
no `Input` returned. -/
theorem new_initial_incoming_count {LIMBS ARITY : ℕ}
    (nps sps : PlonkStructure) (spi : FoldablePlonkInstance F) :
    (nps.num_challenges ≤ 3 → (∀ w ∈ spi.W_commitments, w.isSome) →
      ∃ inp : Input LIMBS ARITY F,
        Input.new_initial nps sps spi = some inp ∧
          inp.support_trace.incoming.length
            = if nps.num_challenges ≤ 1 then 1 else nps.num_challenges) ∧
    (3 < nps.num_challenges →
      (Input.new_initial nps sps spi : Option (Input LIMBS ARITY F)) = none) := by
  constructor
  · intro h3 hw
    obtain ⟨ws, hws⟩ := optionList_eq_some spi.W_commitments hw
    have hcase : (nps.num_challenges = 0
          ∧ (if nps.num_challenges ≤ 1 then 1 else nps.num_challenges) = 1)
        ∨ (nps.num_challenges = 1
          ∧ (if nps.num_challenges ≤ 1 then 1 else nps.num_challenges) = 1)
        ∨ (nps.num_challenges = 2
          ∧ (if nps.num_challenges ≤ 1 then 1 else nps.num_challenges) = 2)
        ∨ (nps.num_challenges = 3
          ∧ (if nps.num_challenges ≤ 1 then 1 else nps.num_challenges) = 3) := by
      rcases Nat.lt_or_ge nps.num_challenges 2 with h2 | h2
      · interval_cases h : nps.num_challenges
        · exact Or.inl ⟨rfl, by simp⟩
        · exact Or.inr (Or.inl ⟨rfl, by simp⟩)
      · interval_cases h : nps.num_challenges
        · exact Or.inr (Or.inr (Or.inl ⟨rfl, by norm_num⟩))
        · exact Or.inr (Or.inr (Or.inr ⟨rfl, by norm_num⟩))
    obtain ⟨st, hst, hstlen⟩ := @selfTrace_new_initial_eq F _ LIMBS nps
      (if nps.num_challenges ≤ 1 then 1 else nps.num_challenges) hcase
    obtain ⟨t, ht, htlen⟩ := supportTrace_new_initial_eq sps spi
      st.W_commitments_len ws hws
    refine ⟨⟨(0, 0), st, t, 0, fun _ => 0, fun _ => 0⟩, ?_, ?_⟩
    · unfold Input.new_initial
      rw [hst]
      show (SupportTrace.new_initial sps spi st.W_commitments_len).bind _ = _
      rw [ht]
      rfl
    · show t.incoming.length = _
      rw [htlen, hstlen]
  · intro h3
    unfold Input.new_initial
    rw [selfTrace_new_initial_none nps h3]
    rfl

/-- Witness for C7 at a concrete two-challenge native shape. -/
theorem new_initial_incoming_count_witness :
    ∃ inp : Input 1 1 (ZMod 5),
      Input.new_initial nps0 sps0 spi0 = some inp ∧
        inp.support_trace.incoming.length
          = if nps0.num_challenges ≤ 1 then 1 else nps0.num_challenges :=
  (new_initial_incoming_count nps0 sps0 spi0).1 (by decide) (by decide)

/-- C10: `SangriaAccumulatorInstance::new` returns normally exactly when
the supplied relaxed instance's hash-accumulator field is `None` and its
`W` commitments and error commitment are all finite affine points; when
the hash-accumulator field is `Hashed` or any of those points is the
group identity, construction panics (no value is produced). -/
theorem sangria_new_total_iff (acc : RelaxedPlonkInstance F) :
    (SangriaAccumulatorInstance.new acc).isSome = true ↔
      (acc.step_circuit_instances_hash_accumulator = SCInstancesHashAcc.None
        ∧ (∀ w ∈ acc.W_commitments, w.isSome) ∧ acc.E_commitment.isSome) := by
  unfold SangriaAccumulatorInstance.new
  cases hacc : acc.step_circuit_instances_hash_accumulator with
  | Hashed v => simp
  | None =>
    rw [← optionList_isSome_iff]
    cases hws : optionList acc.W_commitments with
    | none => simp
    | some ws =>
      cases he : acc.E_commitment with
      | none => simp
      | some e => simp

end Sirius
